import Mathlib

/-!
Verification of the world/cache state engine of the geocaching game in
`src/main.ts`.  The engine's state (class `GameState`), the flyweight cell
registry (class `Board`), the procedural coin generation
(`GameFacade.createNewCache`), and the persistence restore path
(`GameSaver.loadGame`) are shallowly embedded below; JavaScript `Map`
objects are modelled as association lists with first-occurrence lookup and
in-place replacement, matching `Map.get` / `Map.set` semantics, and
JavaScript numbers are modelled as exact rationals (`ℚ`) or integers.
-/

set_option autoImplicit false

namespace Geocache

/-- `Map.get`: first entry whose key matches, if any. -/
def mapGet {κ α : Type} [DecidableEq κ] (l : List (κ × α)) (k : κ) : Option α :=
  match l with
  | [] => none
  | (k', v) :: rest => if k' = k then some v else mapGet rest k

/-- `Map.set`: replace the value at an existing key in place (JS `Map.set`
keeps the original insertion position), or append a fresh entry. -/
def mapSet {κ α : Type} [DecidableEq κ] (l : List (κ × α)) (k : κ) (v : α) :
    List (κ × α) :=
  match l with
  | [] => [(k, v)]
  | (k', v') :: rest =>
    if k' = k then (k', v) :: rest else (k', v') :: mapSet rest k v

/-- `interface Cell { readonly i: number; readonly j: number }` -/
structure Cell where
  i : Int
  j : Int
deriving DecidableEq, Repr

/-- `interface Coin { value: number; origin: Cell; serial: number }` -/
structure Coin where
  value : Int
  origin : Cell
  serial : Int
deriving DecidableEq, Repr

/-- `interface CacheMemento { cell: Cell; coins: Coin[]; isDiscovered: boolean }` -/
structure CacheMemento where
  cell : Cell
  coins : List Coin
  isDiscovered : Bool
deriving DecidableEq, Repr

/-- The mutable fields of `class GameState`. -/
structure GameState where
  carriedCoins : List Coin
  cacheStates : List (String × CacheMemento)
deriving DecidableEq, Repr

/-- `getCacheKey(cell)` returns the template string `` `${cell.i}, ${cell.j}` ``. -/
def getCacheKey (cell : Cell) : String :=
  toString cell.i ++ ", " ++ toString cell.j

/-- `getCache(cell)`: `this.cacheStates.get(this.getCacheKey(cell))`. -/
def GameState.getCache (gs : GameState) (cell : Cell) : Option CacheMemento :=
  mapGet gs.cacheStates (getCacheKey cell)

/-- `isCacheDiscovered(cell)`: `memento ? memento.isDiscovered : false`. -/
def GameState.isCacheDiscovered (gs : GameState) (cell : Cell) : Bool :=
  match gs.getCache cell with
  | some m => m.isDiscovered
  | none => false

/-- `saveCache(cell, coins)`: stores a new memento under the cell's key,
preserving the discovered flag of any existing entry. -/
def GameState.saveCache (gs : GameState) (cell : Cell) (coins : List Coin) :
    GameState :=
  let key := getCacheKey cell
  let disc :=
    match mapGet gs.cacheStates key with
    | some existingInventory => existingInventory.isDiscovered
    | none => false
  { gs with cacheStates := mapSet gs.cacheStates key ⟨cell, coins, disc⟩ }

/-- `discoverCache(cell)`: if a memento exists, set `isDiscovered = true`
and re-`set` it under the same key. -/
def GameState.discoverCache (gs : GameState) (cell : Cell) : GameState :=
  let key := getCacheKey cell
  match mapGet gs.cacheStates key with
  | none => gs
  | some m =>
    { gs with cacheStates := mapSet gs.cacheStates key { m with isDiscovered := true } }

/-- `collectCoin(cell)`: if the cache exists and is non-empty, `pop()` its
last coin (LIFO) and `push` it onto `carriedCoins`. -/
def GameState.collectCoin (gs : GameState) (cell : Cell) : GameState :=
  let key := getCacheKey cell
  match mapGet gs.cacheStates key with
  | none => gs
  | some m =>
    match m.coins.getLast? with
    | none => gs
    | some coin =>
      { carriedCoins := gs.carriedCoins ++ [coin],
        cacheStates := mapSet gs.cacheStates key { m with coins := m.coins.dropLast } }

/-- `depositCoin(cell)`: `pop()` the last carried coin; if one exists,
`push` it onto an existing cache's coins, or `saveCache(cell, [coin])`
when no cache exists for the cell. -/
def GameState.depositCoin (gs : GameState) (cell : Cell) : GameState :=
  match gs.carriedCoins.getLast? with
  | none => gs
  | some coin =>
    let rest := gs.carriedCoins.dropLast
    let key := getCacheKey cell
    match mapGet gs.cacheStates key with
    | some m =>
      { carriedCoins := rest,
        cacheStates := mapSet gs.cacheStates key { m with coins := m.coins ++ [coin] } }
    | none =>
      GameState.saveCache { gs with carriedCoins := rest } cell [coin]

/-- `initializeCache(cell, coins)`: `saveCache` only when no memento exists. -/
def GameState.initializeCache (gs : GameState) (cell : Cell) (coins : List Coin) :
    GameState :=
  match mapGet gs.cacheStates (getCacheKey cell) with
  | some _ => gs
  | none => gs.saveCache cell coins

/-- The comma-joined key `[i, j].toString()` used by `Board.getCanonicalCell`,
also the template `` `${cell.i},${cell.j}` `` used for `activeCaches` and
`luck` existence checks. -/
def boardKey (i j : Int) : String :=
  toString i ++ "," ++ toString j

/-- `class Board`: the flyweight registry `knownCells : Map<string, Cell>`. -/
structure Board where
  knownCells : List (String × Cell)
deriving DecidableEq, Repr

/-- `getCanonicalCell(cell)`: look the key up; if absent, register a fresh
`{ i, j }` record; return the registered cell.  The returned board is the
(possibly extended) registry. -/
def Board.getCanonicalCell (b : Board) (cell : Cell) : Cell × Board :=
  let key := boardKey cell.i cell.j
  match mapGet b.knownCells key with
  | some stored => (stored, b)
  | none => (⟨cell.i, cell.j⟩, ⟨mapSet b.knownCells key ⟨cell.i, cell.j⟩⟩)

/-- `getCellForPoint(point)`: quantize `(lat, lng)` by
`Math.floor(point.lat * 10000)` per axis, then canonicalize. -/
def Board.getCellForPoint (b : Board) (lat lng : ℚ) : Cell × Board :=
  b.getCanonicalCell ⟨⌊lat * 10000⌋, ⌊lng * 10000⌋⟩

/-- `getCellBounds(cell)`: the south-west and north-east corners
`[cell.i / 10000, cell.j / 10000]` and `[(cell.i + 1) / 10000, (cell.j + 1) / 10000]`. -/
def getCellBounds (cell : Cell) : (ℚ × ℚ) × (ℚ × ℚ) :=
  (((cell.i : ℚ) / 10000, (cell.j : ℚ) / 10000),
   (((cell.i : ℚ) + 1) / 10000, ((cell.j : ℚ) + 1) / 10000))

/-- `GameFacade.CACHE_PROBABILITY = 0.1`. -/
def CACHE_PROBABILITY : ℚ := 1 / 10

/-- The string `[cell.i, cell.j, "coins"].toString()` hashed to size a cache. -/
def coinsKey (cell : Cell) : String :=
  boardKey cell.i cell.j ++ ",coins"

/-- The string `[cell.i, cell.j, idx].toString()` hashed for one coin's value. -/
def coinValueKey (cell : Cell) (idx : Nat) : String :=
  boardKey cell.i cell.j ++ "," ++ toString idx

/-- `Math.floor(luck([cell.i, cell.j, "coins"].toString()) * 5) + 1`: the
length of the generated coin array.  `luck` is the deterministic
string-hash from `src/luck.ts` (not part of `src/`).  Modelled from the
spec: `luck` hashes a string into a uniform value in `[0,1)`, so it is
passed in as an arbitrary function `String → ℚ`; theorems assume its range
where needed. -/
def coinCount (luck : String → ℚ) (cell : Cell) : Int :=
  ⌊luck (coinsKey cell) * 5⌋ + 1

/-- The coin array built by `GameFacade.createNewCache` via `Array.from`:
index `idx` yields `{ value: Math.floor(luck([i, j, idx].toString()) * 100),
origin: cell, serial: idx }`. -/
def createNewCacheCoins (luck : String → ℚ) (cell : Cell) : List Coin :=
  (List.range (coinCount luck cell).toNat).map fun idx =>
    ⟨⌊luck (coinValueKey cell idx) * 100⌋, cell, Int.ofNat idx⟩

/-- The `GameState` effect of `GameFacade.createNewCache`:
`this.gameState.saveCache(cell, coins)` (the `createCache` call only builds
the Leaflet rectangle and popup). -/
def GameFacade.createNewCacheState (luck : String → ℚ) (gs : GameState) (cell : Cell) :
    GameState :=
  gs.saveCache cell (createNewCacheCoins luck cell)

/-- The `GameState` effect of one loop iteration of
`GameFacade.updateVisibleCaches` on a cell that is not yet active: an
existing memento is reactivated (`createCacheFromMemento`, which calls
`discoverCache` when `memento.isDiscovered`), otherwise a cache is freshly
generated when `luck(cacheKey) < CACHE_PROBABILITY`.  The
`activeCaches`-rectangle bookkeeping is UI-only and carries no game state. -/
def GameFacade.activateCellState (luck : String → ℚ) (gs : GameState) (cell : Cell) :
    GameState :=
  match gs.getCache cell with
  | some m => if m.isDiscovered then gs.discoverCache cell else gs
  | none =>
    if luck (boardKey cell.i cell.j) < CACHE_PROBABILITY then
      GameFacade.createNewCacheState luck gs cell
    else gs

/-- A collect-or-deposit operation, as dispatched by the cache popup buttons. -/
inductive CDOp where
  | collect (cell : Cell)
  | deposit (cell : Cell)
deriving DecidableEq, Repr

def applyCDOp (gs : GameState) : CDOp → GameState
  | .collect cell => gs.collectCoin cell
  | .deposit cell => gs.depositCoin cell

def applyCDOps (gs : GameState) (ops : List CDOp) : GameState :=
  ops.foldl applyCDOp gs

/-- The number of coins held by all cache mementos of a `cacheStates` map. -/
def sumCacheCoins (l : List (String × CacheMemento)) : Nat :=
  (l.map fun e => e.2.coins.length).sum

/-- The total token count over the carried inventory and all cache contents. -/
def totalCoins (gs : GameState) : Nat :=
  gs.carriedCoins.length + sumCacheCoins gs.cacheStates

/-- Every `GameState`-mutating operation of the engine other than a full
reset: collect, deposit, a `saveCache` overwrite, `discoverCache`,
`initializeCache`, and window activation (deactivation does not touch
`GameState`). -/
inductive WOp where
  | collect (cell : Cell)
  | deposit (cell : Cell)
  | save (cell : Cell) (coins : List Coin)
  | discover (cell : Cell)
  | initCache (cell : Cell) (coins : List Coin)
  | activate (luck : String → ℚ) (cell : Cell)

def applyWOp (gs : GameState) : WOp → GameState
  | .collect cell => gs.collectCoin cell
  | .deposit cell => gs.depositCoin cell
  | .save cell coins => gs.saveCache cell coins
  | .discover cell => gs.discoverCache cell
  | .initCache cell coins => gs.initializeCache cell coins
  | .activate luck cell => GameFacade.activateCellState luck gs cell

def applyWOps (gs : GameState) (ops : List WOp) : GameState :=
  ops.foldl applyWOp gs

/-- A JavaScript value as produced by `JSON.parse` (plus `undefined`, which
property accesses can yield).  Numbers are exact rationals. -/
inductive Js where
  | undefined
  | null
  | bool (b : Bool)
  | num (q : ℚ)
  | str (s : String)
  | arr (elems : List Js)
  | obj (fields : List (String × Js))
deriving Repr

mutual

/-- Structural equality on `Js` values (JSON values restored from a save
file are compared by value). -/
def Js.eqb : Js → Js → Bool
  | .undefined, .undefined => true
  | .null, .null => true
  | .bool a, .bool b => a == b
  | .num a, .num b => a == b
  | .str a, .str b => a == b
  | .arr xs, .arr ys => Js.eqbL xs ys
  | .obj xs, .obj ys => Js.eqbF xs ys
  | _, _ => false

def Js.eqbL : List Js → List Js → Bool
  | [], [] => true
  | x :: xs, y :: ys => Js.eqb x y && Js.eqbL xs ys
  | _, _ => false

def Js.eqbF : List (String × Js) → List (String × Js) → Bool
  | [], [] => true
  | (k, v) :: xs, (l, w) :: ys => k == l && Js.eqb v w && Js.eqbF xs ys
  | _, _ => false

end

/-- `Map.set` on a map with `Js` keys (save-file cache keys are strings,
compared by value). -/
def jsMapSet (m : List (Js × Js)) (k v : Js) : List (Js × Js) :=
  match m with
  | [] => [(k, v)]
  | (l, w) :: rest =>
    if Js.eqb l k then (l, v) :: rest else (l, w) :: jsMapSet rest k v

/-- A JavaScript property read `v.name`: throws `TypeError` on `null` /
`undefined`, yields the field of an object (or `undefined` when missing),
and yields `undefined` on every other primitive or array. -/
def jsField (v : Js) (name : String) : Except String Js :=
  match v with
  | .undefined => .error "TypeError"
  | .null => .error "TypeError"
  | .obj fields => .ok ((mapGet fields name).getD .undefined)
  | _ => .ok .undefined

/-- JavaScript truthiness of a value. -/
def jsTruthy : Js → Bool
  | .undefined => false
  | .null => false
  | .bool b => b
  | .num q => q != 0
  | .str s => s != ""
  | .arr _ => true
  | .obj _ => true

/-- Array destructuring `[key, memento] = e` as used by the
`cacheInventories.forEach` callback: arrays yield their first two elements
(`undefined` past the end), strings are iterable character-wise, and every
other value throws `TypeError`. -/
def jsDestructure2 : Js → Except String (Js × Js)
  | .arr [] => .ok (.undefined, .undefined)
  | .arr [k] => .ok (k, .undefined)
  | .arr (k :: v :: _) => .ok (k, v)
  | .str s =>
    match s.data with
    | [] => .ok (.undefined, .undefined)
    | [a] => .ok (.str (String.mk [a]), .undefined)
    | a :: b :: _ => .ok (.str (String.mk [a]), .str (String.mk [b]))
  | _ => .error "TypeError"

/-- The `gameState.cacheInventories.forEach(([key, memento]) => ...set(key, memento))`
loop.  Returns the map built so far together with a flag telling whether an
entry threw mid-loop (entries before the throwing one stay applied). -/
def forEachSetEntries : List Js → List (Js × Js) → List (Js × Js) × Bool
  | [], m => (m, false)
  | e :: rest, m =>
    match jsDestructure2 e with
    | .error _ => (m, true)
    | .ok (k, v) => forEachSetEntries rest (jsMapSet m k v)

/-- `gameState.pathHistory.map((pos) => leaflet.latLng(pos.lat, pos.lng))`;
`latLng` is the external Leaflet constructor, passed in as a parameter. -/
def mapPathHistory (latLng : Js → Js → Except String (Js × Js)) :
    List Js → Except String (List (Js × Js))
  | [] => .ok []
  | p :: rest =>
    match jsField p "lat" with
    | .error e => .error e
    | .ok la =>
      match jsField p "lng" with
      | .error e => .error e
      | .ok ln =>
        match latLng la ln with
        | .error e => .error e
        | .ok pt => (mapPathHistory latLng rest).map (pt :: ·)

/-- The in-memory state read and written by `GameSaver.loadGame`: the
`GameState` fields as dynamic values (a restore can assign arbitrary parsed
values to them), the player marker position, and the trail. -/
structure LoadState where
  carriedCoins : Js
  cacheStates : List (Js × Js)
  playerPosition : Js × Js
  positions : List (Js × Js)
deriving Repr

/-- `GameSaver.loadGame()`, step by step inside its `try`/`catch`.  The
blob argument is the result of `localStorage.getItem` followed by
`JSON.parse`: `none` = no saved item, `some none` = `JSON.parse` threw,
`some (some v)` = parsed value `v`.  `latLng` models the external
`leaflet.latLng` constructor and `wvc` the trailing
`updateVisibleCaches(position)` call (modelled separately in typed form as
`GameFacade.activateCellState`); both are parameters because they are
external to the function.  Any `TypeError` raised mid-restore is caught by
the surrounding `catch`, which returns `false` — the mutations already
performed are kept. -/
def loadGame (latLng : Js → Js → Except String (Js × Js))
    (wvc : Js × Js → LoadState → LoadState)
    (blob : Option (Option Js)) (s : LoadState) : Bool × LoadState :=
  match blob with
  | none => (false, s)
  | some none => (false, s)
  | some (some v) =>
    match jsField v "carriedCoins" with
    | .error _ => (false, s)
    | .ok cc =>
      let s1 : LoadState := { s with carriedCoins := cc, cacheStates := [] }
      match jsField v "cacheInventories" with
      | .error _ => (false, s1)
      | .ok inv =>
        match inv with
        | .arr entries =>
          match forEachSetEntries entries [] with
          | (partialMap, true) => (false, { s1 with cacheStates := partialMap })
          | (fullMap, false) =>
            let s2 : LoadState := { s1 with cacheStates := fullMap }
            match jsField v "playerPosition" with
            | .error _ => (false, s2)
            | .ok pp =>
              match jsField pp "lat" with
              | .error _ => (false, s2)
              | .ok la =>
                match jsField pp "lng" with
                | .error _ => (false, s2)
                | .ok ln =>
                  match latLng la ln with
                  | .error _ => (false, s2)
                  | .ok pos =>
                    let s3 : LoadState := { s2 with playerPosition := pos }
                    match jsField v "pathHistory" with
                    | .error _ => (false, s3)
                    | .ok ph =>
                      if jsTruthy ph then
                        match ph with
                        | .arr posList =>
                          match mapPathHistory latLng posList with
                          | .error _ => (false, s3)
                          | .ok newPositions =>
                            (true, wvc pos { s3 with positions := newPositions })
                        | _ => (false, s3)
                      else (true, wvc pos s3)
        | _ => (false, s1)

/-! ### Association-list map lemmas -/

theorem mapGet_mapSet_self {κ α : Type} [DecidableEq κ] (l : List (κ × α)) (k : κ) (v : α) :
    mapGet (mapSet l k v) k = some v := by
  induction l with
  | nil => simp [mapSet, mapGet]
  | cons hd rest ih =>
    obtain ⟨k', v'⟩ := hd
    by_cases h : k' = k <;> simp [mapSet, mapGet, h, ih]

theorem mapGet_mapSet_ne {κ α : Type} [DecidableEq κ] (l : List (κ × α)) (k k' : κ) (v : α)
    (h : k' ≠ k) : mapGet (mapSet l k v) k' = mapGet l k' := by
  induction l with
  | nil =>
    have h' : ¬ (k = k') := fun hh => h hh.symm
    simp [mapSet, mapGet, h']
  | cons hd rest ih =>
    obtain ⟨k₀, v₀⟩ := hd
    by_cases hk : k₀ = k
    · subst hk
      have h' : ¬ (k₀ = k') := fun hh => h hh.symm
      simp [mapSet, mapGet, h']
    · by_cases hk' : k₀ = k' <;> simp [mapSet, mapGet, hk, hk', ih, h]

theorem mapSet_append_of_get_none {κ α : Type} [DecidableEq κ] (l : List (κ × α)) (k : κ)
    (v : α) (h : mapGet l k = none) : mapSet l k v = l ++ [(k, v)] := by
  induction l with
  | nil => simp [mapSet]
  | cons hd rest ih =>
    obtain ⟨k₀, v₀⟩ := hd
    by_cases hk : k₀ = k
    · simp [mapGet, hk] at h
    · simp [mapGet, hk] at h
      simp [mapSet, hk, ih h]

theorem mapSet_eq_self_of_get {κ α : Type} [DecidableEq κ] (l : List (κ × α)) (k : κ)
    (v : α) (h : mapGet l k = some v) : mapSet l k v = l := by
  induction l with
  | nil => simp [mapGet] at h
  | cons hd rest ih =>
    obtain ⟨k₀, v₀⟩ := hd
    by_cases hk : k₀ = k
    · simp [mapGet, hk] at h
      simp [mapSet, hk, h]
    · simp [mapGet, hk] at h
      simp [mapSet, hk, ih h]

theorem mapSet_mapSet {κ α : Type} [DecidableEq κ] (l : List (κ × α)) (k : κ) (v w : α) :
    mapSet (mapSet l k v) k w = mapSet l k w := by
  induction l with
  | nil => simp [mapSet]
  | cons hd rest ih =>
    obtain ⟨k₀, v₀⟩ := hd
    by_cases hk : k₀ = k <;> simp [mapSet, hk, ih]

theorem sumCacheCoins_mapSet (l : List (String × CacheMemento)) (k : String)
    (m v : CacheMemento) (h : mapGet l k = some m) :
    sumCacheCoins (mapSet l k v) + m.coins.length = sumCacheCoins l + v.coins.length := by
  induction l with
  | nil => simp [mapGet] at h
  | cons hd rest ih =>
    obtain ⟨k₀, v₀⟩ := hd
    by_cases hk : k₀ = k
    · simp [mapGet, hk] at h
      subst h
      simp [mapSet, hk, sumCacheCoins]
      omega
    · simp [mapGet, hk] at h
      have := ih h
      simp [mapSet, hk, sumCacheCoins] at this ⊢
      omega

theorem sumCacheCoins_append (l : List (String × CacheMemento)) (k : String)
    (v : CacheMemento) :
    sumCacheCoins (l ++ [(k, v)]) = sumCacheCoins l + v.coins.length := by
  simp [sumCacheCoins]

/-- The keys of a map, in order. -/
def mapKeys {κ α : Type} (l : List (κ × α)) : List κ :=
  l.map Prod.fst

theorem mapKeys_mapSet_of_get_some {κ α : Type} [DecidableEq κ] (l : List (κ × α))
    (k : κ) (v w : α) (h : mapGet l k = some v) :
    mapKeys (mapSet l k w) = mapKeys l := by
  induction l with
  | nil => simp [mapGet] at h
  | cons hd rest ih =>
    obtain ⟨k₀, v₀⟩ := hd
    by_cases hk : k₀ = k
    · simp [mapSet, hk, mapKeys]
    · simp [mapGet, hk] at h
      simp [mapSet, hk, mapKeys] at ih ⊢
      exact ih h

theorem mem_mapSet {κ α : Type} [DecidableEq κ] (l : List (κ × α)) (k : κ) (v : α)
    (e : κ × α) (h : e ∈ mapSet l k v) : e ∈ l ∨ e.1 = k := by
  induction l with
  | nil => simp [mapSet] at h; simp [h]
  | cons hd rest ih =>
    obtain ⟨k₀, v₀⟩ := hd
    by_cases hk : k₀ = k
    · subst hk
      simp [mapSet] at h
      rcases h with h | h
      · simp [h]
      · simp [h]
    · simp [mapSet, hk] at h
      rcases h with h | h
      · simp [h]
      · rcases ih h with h' | h'
        · simp [h']
        · simp [h']

theorem mapKeys_nodup_mapSet {κ α : Type} [DecidableEq κ] (l : List (κ × α)) (k : κ)
    (v : α) (h : (mapKeys l).Nodup) : (mapKeys (mapSet l k v)).Nodup := by
  induction l with
  | nil => simp [mapSet, mapKeys]
  | cons hd rest ih =>
    obtain ⟨k₀, v₀⟩ := hd
    simp [mapKeys] at h
    by_cases hk : k₀ = k
    · subst hk
      simpa [mapSet, mapKeys] using h
    · simp [mapSet, hk, mapKeys]
      refine ⟨?_, by simpa [mapKeys] using ih h.2⟩
      intro x hmem
      rcases mem_mapSet rest k v (k₀, x) hmem with hmem' | hfst
      · exact h.1 x hmem'
      · exact hk (by simpa using hfst)

theorem mapGet_mapSet_of_get_none {κ α : Type} [DecidableEq κ] (l : List (κ × α))
    (k k' : κ) (v w : α) (hnone : mapGet l k' = none) (h : mapGet l k = some v) :
    mapGet (mapSet l k' w) k = some v := by
  have hne : k ≠ k' := by
    intro hh
    rw [hh, hnone] at h
    exact Option.noConfusion h
  rw [mapGet_mapSet_ne l k' k w hne, h]

/-! ### Conservation of tokens under collect and deposit -/

theorem length_pos_of_getLast_some {α : Type} (l : List α) (a : α)
    (h : l.getLast? = some a) : l.length = l.dropLast.length + 1 := by
  have hne : l ≠ [] := by
    intro hh
    rw [hh] at h
    simp at h
  have := List.length_dropLast l
  have hpos : 0 < l.length := List.length_pos.mpr hne
  omega

theorem totalCoins_collectCoin (gs : GameState) (cell : Cell) :
    totalCoins (gs.collectCoin cell) = totalCoins gs := by
  unfold GameState.collectCoin
  dsimp only
  split
  · rfl
  next m hm =>
    split
    · rfl
    next coin hcoin =>
      have hsum := sumCacheCoins_mapSet gs.cacheStates (getCacheKey cell) m
        { m with coins := m.coins.dropLast } hm
      have hlen := length_pos_of_getLast_some m.coins coin hcoin
      dsimp only at hsum
      simp only [totalCoins, List.length_append, List.length_cons, List.length_nil]
      omega

theorem totalCoins_depositCoin (gs : GameState) (cell : Cell) :
    totalCoins (gs.depositCoin cell) = totalCoins gs := by
  unfold GameState.depositCoin
  dsimp only
  split
  · rfl
  next coin hcoin =>
    have hlen := length_pos_of_getLast_some gs.carriedCoins coin hcoin
    split
    next m hm =>
      have hsum := sumCacheCoins_mapSet gs.cacheStates (getCacheKey cell) m
        { m with coins := m.coins ++ [coin] } hm
      dsimp only at hsum
      simp only [List.length_append, List.length_cons, List.length_nil] at hsum
      simp only [totalCoins, List.length_append, List.length_cons, List.length_nil]
      omega
    next hm =>
      unfold GameState.saveCache
      dsimp only
      simp only [hm]
      rw [mapSet_append_of_get_none _ _ _ hm]
      simp only [totalCoins, sumCacheCoins_append]
      simp only [List.length_cons, List.length_nil]
      omega

/-- C1: for every game state and every sequence of `collectCoin` and
`depositCoin` operations, the total number of tokens summed over the
carried inventory and the contents of all cache states is unchanged —
`collectCoin` moves one token from a cache to the inventory (or does
nothing), `depositCoin` moves one token from the inventory to a cache (or
does nothing), and neither creates nor destroys a token. -/
theorem collect_deposit_token_conservation (gs : GameState) (ops : List CDOp) :
    totalCoins (applyCDOps gs ops) = totalCoins gs := by
  induction ops generalizing gs with
  | nil => rfl
  | cons op rest ih =>
    have h1 : applyCDOps gs (op :: rest) = applyCDOps (applyCDOp gs op) rest := rfl
    rw [h1, ih]
    cases op with
    | collect cell => exact totalCoins_collectCoin gs cell
    | deposit cell => exact totalCoins_depositCoin gs cell

/-- C10: for every game state and every cell whose cache state exists and
has non-empty contents, `collectCoin` immediately followed by `depositCoin`
at the same cell restores the whole state — both the cache's contents and
the carried inventory return to exactly their original sequences, because
both operate LIFO on the same ends of the two sequences. -/
theorem collect_then_deposit_identity (gs : GameState) (cell : Cell) (m : CacheMemento)
    (hm : gs.getCache cell = some m) (hne : m.coins ≠ []) :
    (gs.collectCoin cell).depositCoin cell = gs := by
  have hget : mapGet gs.cacheStates (getCacheKey cell) = some m := hm
  have hlast : m.coins.getLast? = some (m.coins.getLast hne) :=
    List.getLast?_eq_getLast m.coins hne
  have hcol : gs.collectCoin cell =
      { carriedCoins := gs.carriedCoins ++ [m.coins.getLast hne],
        cacheStates := mapSet gs.cacheStates (getCacheKey cell)
          { m with coins := m.coins.dropLast } } := by
    unfold GameState.collectCoin
    dsimp only
    rw [hget]
    dsimp only
    rw [hlast]
  rw [hcol]
  unfold GameState.depositCoin
  simp only [List.getLast?_concat, List.dropLast_concat, mapGet_mapSet_self, mapSet_mapSet]
  have hrestore : m.coins.dropLast ++ [m.coins.getLast hne] = m.coins :=
    List.dropLast_append_getLast hne
  rw [hrestore]
  show ({ carriedCoins := gs.carriedCoins,
          cacheStates := mapSet gs.cacheStates (getCacheKey cell) m } : GameState) = gs
  rw [mapSet_eq_self_of_get _ _ _ hget]

/-- Witness for C10 at a concrete one-coin cache. -/
theorem collect_then_deposit_identity_witness :
    (((⟨[], [("0, 0", ⟨⟨0, 0⟩, [⟨1, ⟨0, 0⟩, 0⟩], false⟩)]⟩ : GameState).collectCoin
        ⟨0, 0⟩).depositCoin ⟨0, 0⟩) =
      ⟨[], [("0, 0", ⟨⟨0, 0⟩, [⟨1, ⟨0, 0⟩, 0⟩], false⟩)]⟩ :=
  collect_then_deposit_identity _ ⟨0, 0⟩ ⟨⟨0, 0⟩, [⟨1, ⟨0, 0⟩, 0⟩], false⟩
    (by decide) (by decide)

theorem getCache_mapSet (l : List (String × CacheMemento)) (k : String)
    (v : CacheMemento) (k' : String) :
    mapGet (mapSet l k v) k' = if k' = k then some v else mapGet l k' := by
  by_cases h : k' = k
  · subst h
    simp [mapGet_mapSet_self]
  · simp [h, mapGet_mapSet_ne _ _ _ _ h]

/-- C7: for every cell with an existing cache state, `discoverCache` leaves
every cache's token contents unchanged (it only sets the discovered flag),
and `collectCoin` and `depositCoin` leave every cache's discovered flag
unchanged (they only move tokens). -/
theorem discover_collect_deposit_frame (gs : GameState) (cell : Cell) (m : CacheMemento)
    (hm : gs.getCache cell = some m) :
    (∀ c, ((gs.discoverCache cell).getCache c).map (fun x => x.coins)
        = (gs.getCache c).map (fun x => x.coins))
    ∧ (∀ c, ((gs.collectCoin cell).getCache c).map (fun x => x.isDiscovered)
        = (gs.getCache c).map (fun x => x.isDiscovered))
    ∧ (∀ c, ((gs.depositCoin cell).getCache c).map (fun x => x.isDiscovered)
        = (gs.getCache c).map (fun x => x.isDiscovered)) := by
  have hget : mapGet gs.cacheStates (getCacheKey cell) = some m := hm
  refine ⟨?_, ?_, ?_⟩
  · have hd : (gs.discoverCache cell).cacheStates
        = mapSet gs.cacheStates (getCacheKey cell) { m with isDiscovered := true } := by
      unfold GameState.discoverCache
      dsimp only
      rw [hget]
    intro c
    unfold GameState.getCache
    rw [hd, getCache_mapSet]
    by_cases hc : getCacheKey c = getCacheKey cell
    · rw [if_pos hc, hc, hget]
      rfl
    · rw [if_neg hc]
  · intro c
    cases hl : m.coins.getLast? with
    | none =>
      have hid : gs.collectCoin cell = gs := by
        unfold GameState.collectCoin
        dsimp only
        rw [hget]
        dsimp only
        rw [hl]
      rw [hid]
    | some coin =>
      have hc2 : (gs.collectCoin cell).cacheStates
          = mapSet gs.cacheStates (getCacheKey cell) { m with coins := m.coins.dropLast } := by
        unfold GameState.collectCoin
        dsimp only
        rw [hget]
        dsimp only
        rw [hl]
      unfold GameState.getCache
      rw [hc2, getCache_mapSet]
      by_cases hc : getCacheKey c = getCacheKey cell
      · rw [if_pos hc, hc, hget]
        rfl
      · rw [if_neg hc]
  · intro c
    cases hl : gs.carriedCoins.getLast? with
    | none =>
      have hid : gs.depositCoin cell = gs := by
        unfold GameState.depositCoin
        rw [hl]
      rw [hid]
    | some coin =>
      have hc2 : (gs.depositCoin cell).cacheStates
          = mapSet gs.cacheStates (getCacheKey cell) { m with coins := m.coins ++ [coin] } := by
        unfold GameState.depositCoin
        rw [hl]
        dsimp only
        rw [hget]
      unfold GameState.getCache
      rw [hc2, getCache_mapSet]
      by_cases hc : getCacheKey c = getCacheKey cell
      · rw [if_pos hc, hc, hget]
        rfl
      · rw [if_neg hc]

/-- Witness for C7 at a concrete one-coin discovered-flag scenario. -/
theorem discover_collect_deposit_frame_witness :
    ((((⟨[⟨2, ⟨0, 0⟩, 1⟩], [("0, 0", ⟨⟨0, 0⟩, [⟨1, ⟨0, 0⟩, 0⟩], false⟩)]⟩ :
        GameState).discoverCache ⟨0, 0⟩).getCache ⟨0, 0⟩).map (fun x => x.coins)
      = (((⟨[⟨2, ⟨0, 0⟩, 1⟩], [("0, 0", ⟨⟨0, 0⟩, [⟨1, ⟨0, 0⟩, 0⟩], false⟩)]⟩ :
        GameState)).getCache ⟨0, 0⟩).map (fun x => x.coins))
    ∧ ((((⟨[⟨2, ⟨0, 0⟩, 1⟩], [("0, 0", ⟨⟨0, 0⟩, [⟨1, ⟨0, 0⟩, 0⟩], false⟩)]⟩ :
        GameState).collectCoin ⟨0, 0⟩).getCache ⟨0, 0⟩).map (fun x => x.isDiscovered)
      = (((⟨[⟨2, ⟨0, 0⟩, 1⟩], [("0, 0", ⟨⟨0, 0⟩, [⟨1, ⟨0, 0⟩, 0⟩], false⟩)]⟩ :
        GameState)).getCache ⟨0, 0⟩).map (fun x => x.isDiscovered))
    ∧ ((((⟨[⟨2, ⟨0, 0⟩, 1⟩], [("0, 0", ⟨⟨0, 0⟩, [⟨1, ⟨0, 0⟩, 0⟩], false⟩)]⟩ :
        GameState).depositCoin ⟨0, 0⟩).getCache ⟨0, 0⟩).map (fun x => x.isDiscovered)
      = (((⟨[⟨2, ⟨0, 0⟩, 1⟩], [("0, 0", ⟨⟨0, 0⟩, [⟨1, ⟨0, 0⟩, 0⟩], false⟩)]⟩ :
        GameState)).getCache ⟨0, 0⟩).map (fun x => x.isDiscovered)) :=
  ⟨(discover_collect_deposit_frame _ ⟨0, 0⟩ ⟨⟨0, 0⟩, [⟨1, ⟨0, 0⟩, 0⟩], false⟩
      (by decide)).1 ⟨0, 0⟩,
   (discover_collect_deposit_frame _ ⟨0, 0⟩ ⟨⟨0, 0⟩, [⟨1, ⟨0, 0⟩, 0⟩], false⟩
      (by decide)).2.1 ⟨0, 0⟩,
   (discover_collect_deposit_frame _ ⟨0, 0⟩ ⟨⟨0, 0⟩, [⟨1, ⟨0, 0⟩, 0⟩], false⟩
      (by decide)).2.2 ⟨0, 0⟩⟩

/-- C8: for every cell with no cache state, if the carried inventory is
non-empty, `depositCoin` on that cell creates a new cache state whose
contents are exactly the single deposited token (the most recently carried
one) and whose discovered flag is `false`; every other entry of the
cache-state map is unchanged. -/
theorem deposit_creates_cache (gs : GameState) (cell : Cell) (l : List Coin) (coin : Coin)
    (hnone : gs.getCache cell = none) (hcar : gs.carriedCoins = l ++ [coin]) :
    ((gs.depositCoin cell).getCache cell = some ⟨cell, [coin], false⟩)
    ∧ (gs.depositCoin cell).carriedCoins = l
    ∧ ∀ k, k ≠ getCacheKey cell →
        mapGet (gs.depositCoin cell).cacheStates k = mapGet gs.cacheStates k := by
  have hget : mapGet gs.cacheStates (getCacheKey cell) = none := hnone
  have hlast : gs.carriedCoins.getLast? = some coin := by
    rw [hcar]
    exact List.getLast?_concat _
  have hdrop : gs.carriedCoins.dropLast = l := by
    rw [hcar]
    exact List.dropLast_concat
  have hdep : gs.depositCoin cell =
      { carriedCoins := l,
        cacheStates := mapSet gs.cacheStates (getCacheKey cell) ⟨cell, [coin], false⟩ } := by
    unfold GameState.depositCoin
    rw [hlast]
    dsimp only
    rw [hget]
    dsimp only
    unfold GameState.saveCache
    dsimp only
    rw [hget]
    dsimp only
    rw [hdrop]
  rw [hdep]
  refine ⟨?_, rfl, ?_⟩
  · unfold GameState.getCache
    dsimp only
    rw [mapGet_mapSet_self]
  · intro k hk
    dsimp only
    rw [mapGet_mapSet_ne _ _ _ _ hk]

/-- Witness for C8: depositing onto an uncached cell from a one-coin inventory. -/
theorem deposit_creates_cache_witness :
    (((⟨[⟨5, ⟨1, 2⟩, 0⟩], []⟩ : GameState).depositCoin ⟨3, 4⟩).getCache ⟨3, 4⟩
      = some ⟨⟨3, 4⟩, [⟨5, ⟨1, 2⟩, 0⟩], false⟩)
    ∧ ((⟨[⟨5, ⟨1, 2⟩, 0⟩], []⟩ : GameState).depositCoin ⟨3, 4⟩).carriedCoins = []
    ∧ mapGet ((⟨[⟨5, ⟨1, 2⟩, 0⟩], []⟩ : GameState).depositCoin ⟨3, 4⟩).cacheStates "0, 0"
      = mapGet (⟨[⟨5, ⟨1, 2⟩, 0⟩], []⟩ : GameState).cacheStates "0, 0" :=
  ⟨(deposit_creates_cache _ ⟨3, 4⟩ [] ⟨5, ⟨1, 2⟩, 0⟩ (by decide) rfl).1,
   (deposit_creates_cache _ ⟨3, 4⟩ [] ⟨5, ⟨1, 2⟩, 0⟩ (by decide) rfl).2.1,
   (deposit_creates_cache _ ⟨3, 4⟩ [] ⟨5, ⟨1, 2⟩, 0⟩ (by decide) rfl).2.2 "0, 0"
     (by decide)⟩

/-! ### Monotonicity of the discovered flag -/

theorem isCacheDiscovered_iff (gs : GameState) (c : Cell) :
    gs.isCacheDiscovered c = true ↔
      ∃ m, mapGet gs.cacheStates (getCacheKey c) = some m ∧ m.isDiscovered = true := by
  unfold GameState.isCacheDiscovered GameState.getCache
  cases hm : mapGet gs.cacheStates (getCacheKey c) <;> simp

theorem flag_true_mapSet (l : List (String × CacheMemento)) (k : String)
    (v : CacheMemento) (kc : String) (m : CacheMemento)
    (hm : mapGet l kc = some m) (hdisc : m.isDiscovered = true)
    (hv : kc = k → v.isDiscovered = true) :
    ∃ m', mapGet (mapSet l k v) kc = some m' ∧ m'.isDiscovered = true := by
  by_cases hk : kc = k
  · subst hk
    exact ⟨v, mapGet_mapSet_self l kc v, hv rfl⟩
  · exact ⟨m, by rw [mapGet_mapSet_ne _ _ _ _ hk, hm], hdisc⟩

theorem flag_true_saveCache (gs : GameState) (cell : Cell) (coins : List Coin)
    (c : Cell) (m : CacheMemento)
    (hm : mapGet gs.cacheStates (getCacheKey c) = some m) (hdisc : m.isDiscovered = true) :
    ∃ m', mapGet (gs.saveCache cell coins).cacheStates (getCacheKey c) = some m'
      ∧ m'.isDiscovered = true := by
  unfold GameState.saveCache
  dsimp only
  cases hex : mapGet gs.cacheStates (getCacheKey cell) with
  | none =>
    refine flag_true_mapSet _ _ _ _ m hm hdisc ?_
    intro hk
    rw [hk, hex] at hm
    exact Option.noConfusion hm
  | some ex =>
    refine flag_true_mapSet _ _ _ _ m hm hdisc ?_
    intro hk
    rw [hk, hex] at hm
    have hme : ex = m := Option.some.inj hm
    simpa [hme] using hdisc

theorem flag_true_discoverCache (gs : GameState) (cell : Cell)
    (c : Cell) (m : CacheMemento)
    (hm : mapGet gs.cacheStates (getCacheKey c) = some m) (hdisc : m.isDiscovered = true) :
    ∃ m', mapGet (gs.discoverCache cell).cacheStates (getCacheKey c) = some m'
      ∧ m'.isDiscovered = true := by
  unfold GameState.discoverCache
  dsimp only
  cases hex : mapGet gs.cacheStates (getCacheKey cell) with
  | none => exact ⟨m, hm, hdisc⟩
  | some m0 =>
    dsimp only
    refine flag_true_mapSet _ _ _ _ m hm hdisc ?_
    intro _
    rfl

theorem isCacheDiscovered_mono_op (gs : GameState) (c : Cell) (op : WOp)
    (h : gs.isCacheDiscovered c = true) :
    (applyWOp gs op).isCacheDiscovered c = true := by
  rw [isCacheDiscovered_iff] at h ⊢
  obtain ⟨m, hm, hdisc⟩ := h
  cases op with
  | collect cell =>
    show ∃ m', mapGet (gs.collectCoin cell).cacheStates (getCacheKey c) = some m'
      ∧ m'.isDiscovered = true
    unfold GameState.collectCoin
    dsimp only
    cases hm0 : mapGet gs.cacheStates (getCacheKey cell) with
    | none => exact ⟨m, hm, hdisc⟩
    | some m0 =>
      dsimp only
      cases hl : m0.coins.getLast? with
      | none => exact ⟨m, hm, hdisc⟩
      | some coin =>
        dsimp only
        refine flag_true_mapSet _ _ _ _ m hm hdisc ?_
        intro hk
        rw [hk, hm0] at hm
        have hme : m0 = m := Option.some.inj hm
        simpa [hme] using hdisc
  | deposit cell =>
    show ∃ m', mapGet (gs.depositCoin cell).cacheStates (getCacheKey c) = some m'
      ∧ m'.isDiscovered = true
    unfold GameState.depositCoin
    cases hl : gs.carriedCoins.getLast? with
    | none => exact ⟨m, hm, hdisc⟩
    | some coin =>
      dsimp only
      cases hm0 : mapGet gs.cacheStates (getCacheKey cell) with
      | none =>
        exact flag_true_saveCache { gs with carriedCoins := gs.carriedCoins.dropLast }
          cell [coin] c m hm hdisc
      | some m0 =>
        dsimp only
        refine flag_true_mapSet _ _ _ _ m hm hdisc ?_
        intro hk
        rw [hk, hm0] at hm
        have hme : m0 = m := Option.some.inj hm
        simpa [hme] using hdisc
  | save cell coins => exact flag_true_saveCache gs cell coins c m hm hdisc
  | discover cell => exact flag_true_discoverCache gs cell c m hm hdisc
  | initCache cell coins =>
    show ∃ m', mapGet (gs.initializeCache cell coins).cacheStates (getCacheKey c) = some m'
      ∧ m'.isDiscovered = true
    unfold GameState.initializeCache
    cases hm0 : mapGet gs.cacheStates (getCacheKey cell) with
    | none => exact flag_true_saveCache gs cell coins c m hm hdisc
    | some m0 => exact ⟨m, hm, hdisc⟩
  | activate luck cell =>
    show ∃ m', mapGet (GameFacade.activateCellState luck gs cell).cacheStates
      (getCacheKey c) = some m' ∧ m'.isDiscovered = true
    unfold GameFacade.activateCellState GameState.getCache
    cases hm0 : mapGet gs.cacheStates (getCacheKey cell) with
    | none =>
      dsimp only
      by_cases hluck : luck (boardKey cell.i cell.j) < CACHE_PROBABILITY
      · rw [if_pos hluck]
        exact flag_true_saveCache gs cell _ c m hm hdisc
      · rw [if_neg hluck]
        exact ⟨m, hm, hdisc⟩
    | some m0 =>
      dsimp only
      by_cases hfl : m0.isDiscovered
      · rw [if_pos hfl]
        exact flag_true_discoverCache gs cell c m hm hdisc
      · rw [if_neg hfl]
        exact ⟨m, hm, hdisc⟩

/-- C9: the discovered flag is monotonic — once it is true for a cell, no
subsequent sequence of engine operations (collect, deposit, `saveCache`
overwrite, discover, `initializeCache`, window activation) other than a
full game reset ever makes it false again. -/
theorem discovered_flag_monotonic (gs : GameState) (c : Cell) (ops : List WOp)
    (h : gs.isCacheDiscovered c = true) :
    (applyWOps gs ops).isCacheDiscovered c = true := by
  induction ops generalizing gs with
  | nil => exact h
  | cons op rest ih =>
    have h1 : applyWOps gs (op :: rest) = applyWOps (applyWOp gs op) rest := rfl
    rw [h1]
    exact ih (applyWOp gs op) (isCacheDiscovered_mono_op gs c op h)

/-- Witness for C9: a discovered cache stays discovered across a concrete
operation sequence. -/
theorem discovered_flag_monotonic_witness :
    (applyWOps ⟨[⟨7, ⟨0, 0⟩, 0⟩], [("0, 0", ⟨⟨0, 0⟩, [⟨1, ⟨0, 0⟩, 0⟩], true⟩)]⟩
      [.collect ⟨0, 0⟩, .deposit ⟨0, 0⟩, .save ⟨0, 0⟩ [], .discover ⟨0, 0⟩,
       .initCache ⟨0, 0⟩ [], .deposit ⟨0, 0⟩]).isCacheDiscovered ⟨0, 0⟩ = true :=
  discovered_flag_monotonic _ ⟨0, 0⟩ _ (by decide)

/-- C6: cache generation is idempotent per cell — if a cache state already
exists for a cell, window activation and `initializeCache` leave the state
exactly unchanged (no regeneration); and on a cell without a state,
activation either does nothing or installs a freshly generated state whose
discovered flag is `false`. -/
theorem cache_generation_idempotent (luck : String → ℚ) (gs : GameState) (cell : Cell)
    (coins : List Coin) :
    ((∃ m, gs.getCache cell = some m) →
      GameFacade.activateCellState luck gs cell = gs
      ∧ gs.initializeCache cell coins = gs)
    ∧ (gs.getCache cell = none →
      (GameFacade.activateCellState luck gs cell = gs
        ∨ (GameFacade.activateCellState luck gs cell).getCache cell
            = some ⟨cell, createNewCacheCoins luck cell, false⟩)) := by
  constructor
  · rintro ⟨m, hm⟩
    have hget : mapGet gs.cacheStates (getCacheKey cell) = some m := hm
    constructor
    · unfold GameFacade.activateCellState
      rw [hm]
      dsimp only
      by_cases hfl : m.isDiscovered
      · rw [if_pos hfl]
        unfold GameState.discoverCache
        dsimp only
        rw [hget]
        dsimp only
        have hmm : ({ m with isDiscovered := true } : CacheMemento) = m := by
          obtain ⟨mc, mco, md⟩ := m
          simp only at hfl
          simp [hfl]
        rw [hmm, mapSet_eq_self_of_get _ _ _ hget]
      · rw [if_neg hfl]
    · unfold GameState.initializeCache
      rw [hget]
  · intro hm
    have hget : mapGet gs.cacheStates (getCacheKey cell) = none := hm
    unfold GameFacade.activateCellState
    rw [hm]
    dsimp only
    by_cases hluck : luck (boardKey cell.i cell.j) < CACHE_PROBABILITY
    · right
      rw [if_pos hluck]
      unfold GameFacade.createNewCacheState GameState.saveCache
      dsimp only
      rw [hget]
      dsimp only
      unfold GameState.getCache
      dsimp only
      rw [mapGet_mapSet_self]
    · left
      rw [if_neg hluck]

/-- Witness for C6: an already-cached discovered cell is retained unchanged,
and an uncached cell gets a fresh undiscovered state (or nothing). -/
theorem cache_generation_idempotent_witness :
    (GameFacade.activateCellState (fun _ => 0)
        ⟨[], [("0, 0", ⟨⟨0, 0⟩, [], true⟩)]⟩ ⟨0, 0⟩
      = ⟨[], [("0, 0", ⟨⟨0, 0⟩, [], true⟩)]⟩
    ∧ (⟨[], [("0, 0", ⟨⟨0, 0⟩, [], true⟩)]⟩ : GameState).initializeCache ⟨0, 0⟩ []
      = ⟨[], [("0, 0", ⟨⟨0, 0⟩, [], true⟩)]⟩)
    ∧ (GameFacade.activateCellState (fun _ => 0) ⟨[], []⟩ ⟨0, 0⟩ = ⟨[], []⟩
      ∨ (GameFacade.activateCellState (fun _ => 0) ⟨[], []⟩ ⟨0, 0⟩).getCache ⟨0, 0⟩
        = some ⟨⟨0, 0⟩, createNewCacheCoins (fun _ => 0) ⟨0, 0⟩, false⟩) :=
  ⟨(cache_generation_idempotent (fun _ => 0) _ ⟨0, 0⟩ []).1
      ⟨⟨⟨0, 0⟩, [], true⟩, by decide⟩,
   (cache_generation_idempotent (fun _ => 0) _ ⟨0, 0⟩ []).2 (by decide)⟩

/-- C3: cache generation is a pure deterministic function of the cell's
coordinates — repeated generation yields the identical token list; the
token count lies in `[1, 5]`; each token's value is an integer in
`[0, 100)`; each token's origin is the generating cell; and the serials are
exactly `0 .. count-1` in order.  The external hash `luck` is modelled from
the spec as an arbitrary function with range `[0, 1)`. -/
theorem generation_deterministic_and_bounded (luck : String → ℚ)
    (hrange : ∀ s, 0 ≤ luck s ∧ luck s < 1) (cell : Cell) :
    createNewCacheCoins luck cell = createNewCacheCoins luck cell
    ∧ 1 ≤ (createNewCacheCoins luck cell).length
    ∧ (createNewCacheCoins luck cell).length ≤ 5
    ∧ (∀ coin ∈ createNewCacheCoins luck cell,
        0 ≤ coin.value ∧ coin.value < 100 ∧ coin.origin = cell)
    ∧ (createNewCacheCoins luck cell).map (fun coin => coin.serial)
        = (List.range (createNewCacheCoins luck cell).length).map Int.ofNat := by
  have h0 := (hrange (coinsKey cell)).1
  have h1 := (hrange (coinsKey cell)).2
  have hf0 : 0 ≤ ⌊luck (coinsKey cell) * 5⌋ :=
    Int.floor_nonneg.mpr (mul_nonneg h0 (by norm_num))
  have hf4 : ⌊luck (coinsKey cell) * 5⌋ < 5 := Int.floor_lt.mpr (by push_cast; linarith)
  have hlen : (createNewCacheCoins luck cell).length = (coinCount luck cell).toNat := by
    simp [createNewCacheCoins]
  have hcc : coinCount luck cell = ⌊luck (coinsKey cell) * 5⌋ + 1 := rfl
  refine ⟨rfl, ?_, ?_, ?_, ?_⟩
  · rw [hlen]
    omega
  · rw [hlen]
    omega
  · intro coin hc
    simp only [createNewCacheCoins, List.mem_map, List.mem_range] at hc
    obtain ⟨idx, _, rfl⟩ := hc
    have hv0 := (hrange (coinValueKey cell idx)).1
    have hv1 := (hrange (coinValueKey cell idx)).2
    refine ⟨Int.floor_nonneg.mpr (mul_nonneg hv0 (by norm_num)),
      Int.floor_lt.mpr (by push_cast; linarith), rfl⟩
  · simp [createNewCacheCoins, List.map_map]

/-- Witness for C3 at the spec's concrete cell `(3, -2)` with a concrete
in-range hash. -/
theorem generation_deterministic_and_bounded_witness :
    createNewCacheCoins (fun _ => 0) ⟨3, -2⟩ = createNewCacheCoins (fun _ => 0) ⟨3, -2⟩
    ∧ 1 ≤ (createNewCacheCoins (fun _ => 0) ⟨3, -2⟩).length
    ∧ (createNewCacheCoins (fun _ => 0) ⟨3, -2⟩).length ≤ 5
    ∧ (∀ coin ∈ createNewCacheCoins (fun _ => 0) ⟨3, -2⟩,
        0 ≤ coin.value ∧ coin.value < 100 ∧ coin.origin = (⟨3, -2⟩ : Cell))
    ∧ (createNewCacheCoins (fun _ => 0) ⟨3, -2⟩).map (fun coin => coin.serial)
        = (List.range (createNewCacheCoins (fun _ => 0) ⟨3, -2⟩).length).map Int.ofNat :=
  generation_deterministic_and_bounded (fun _ => 0)
    (fun _ => ⟨le_refl 0, by norm_num⟩) ⟨3, -2⟩

/-! ### Board registry lemmas -/

theorem getCanonicalCell_lookup (b : Board) (c : Cell) :
    mapGet (b.getCanonicalCell c).2.knownCells (boardKey c.i c.j)
      = some (b.getCanonicalCell c).1 := by
  unfold Board.getCanonicalCell
  dsimp only
  cases hreg : mapGet b.knownCells (boardKey c.i c.j) with
  | some stored => exact hreg
  | none =>
    dsimp only
    exact mapGet_mapSet_self _ _ _

theorem getCanonicalCell_of_get (b : Board) (c : Cell) (x : Cell)
    (h : mapGet b.knownCells (boardKey c.i c.j) = some x) :
    b.getCanonicalCell c = (x, b) := by
  unfold Board.getCanonicalCell
  dsimp only
  rw [h]

theorem getCanonicalCell_stable (b : Board) (c : Cell) (k : String) (v : Cell)
    (hk : mapGet b.knownCells k = some v) :
    mapGet (b.getCanonicalCell c).2.knownCells k = some v := by
  unfold Board.getCanonicalCell
  dsimp only
  cases hreg : mapGet b.knownCells (boardKey c.i c.j) with
  | some stored => exact hk
  | none =>
    dsimp only
    exact mapGet_mapSet_of_get_none _ _ _ _ _ hreg hk

theorem getCanonicalCell_nodup (b : Board) (c : Cell)
    (h : (mapKeys b.knownCells).Nodup) :
    (mapKeys (b.getCanonicalCell c).2.knownCells).Nodup := by
  unfold Board.getCanonicalCell
  dsimp only
  cases hreg : mapGet b.knownCells (boardKey c.i c.j) with
  | some stored => exact h
  | none =>
    dsimp only
    exact mapKeys_nodup_mapSet _ _ _ h

/-- C4: for every cell and every point strictly inside the rectangle
returned by `getCellBounds`, quantization maps the point back to exactly
the cell's coordinates, and `getCellForPoint` returns the cell itself.
The side condition states that the registry holds no conflicting entry
under the cell's key, which holds throughout the program because the key
`"i,j"` determines `(i, j)`. -/
theorem cell_bounds_round_trip (b : Board) (cell : Cell) (lat lng : ℚ)
    (hlat1 : (getCellBounds cell).1.1 < lat) (hlat2 : lat < (getCellBounds cell).2.1)
    (hlng1 : (getCellBounds cell).1.2 < lng) (hlng2 : lng < (getCellBounds cell).2.2)
    (hreg : mapGet b.knownCells (boardKey cell.i cell.j) = none
      ∨ mapGet b.knownCells (boardKey cell.i cell.j) = some cell) :
    (⌊lat * 10000⌋ = cell.i ∧ ⌊lng * 10000⌋ = cell.j)
    ∧ (b.getCellForPoint lat lng).1 = cell := by
  dsimp only [getCellBounds] at hlat1 hlat2 hlng1 hlng2
  have hi : ⌊lat * 10000⌋ = cell.i := by
    rw [Int.floor_eq_iff]
    constructor
    · exact le_of_lt ((div_lt_iff₀ (by norm_num)).mp hlat1)
    · have h2 := (lt_div_iff₀ (by norm_num)).mp hlat2
      push_cast at h2 ⊢
      linarith
  have hj : ⌊lng * 10000⌋ = cell.j := by
    rw [Int.floor_eq_iff]
    constructor
    · exact le_of_lt ((div_lt_iff₀ (by norm_num)).mp hlng1)
    · have h2 := (lt_div_iff₀ (by norm_num)).mp hlng2
      push_cast at h2 ⊢
      linarith
  refine ⟨⟨hi, hj⟩, ?_⟩
  unfold Board.getCellForPoint
  have hc : (⟨⌊lat * 10000⌋, ⌊lng * 10000⌋⟩ : Cell) = ⟨cell.i, cell.j⟩ := by rw [hi, hj]
  rw [hc]
  rcases hreg with hreg | hreg
  · unfold Board.getCanonicalCell
    dsimp only
    rw [hreg]
  · rw [getCanonicalCell_of_get b ⟨cell.i, cell.j⟩ cell hreg]

/-- Witness for C4: the interior point `(7/20000, -3/20000)` of cell
`(3, -2)` on the fresh empty registry. -/
theorem cell_bounds_round_trip_witness :
    ((⌊(7 / 20000 : ℚ) * 10000⌋ = (⟨3, -2⟩ : Cell).i
      ∧ ⌊(-3 / 20000 : ℚ) * 10000⌋ = (⟨3, -2⟩ : Cell).j)
    ∧ ((⟨[]⟩ : Board).getCellForPoint (7 / 20000) (-3 / 20000)).1 = ⟨3, -2⟩) :=
  cell_bounds_round_trip ⟨[]⟩ ⟨3, -2⟩ (7 / 20000) (-3 / 20000)
    (by norm_num [getCellBounds]) (by norm_num [getCellBounds])
    (by norm_num [getCellBounds]) (by norm_num [getCellBounds])
    (Or.inl rfl)

/-- C5: two points whose coordinates floor to the same integer pair resolve
to the same canonical cell — the first resolution registers (or finds) the
entry for that key, the second returns exactly that entry and leaves the
registry untouched; the registry keeps at most one entry per key and never
drops or changes registered entries. -/
theorem canonical_cell_identity (b : Board) (lat1 lng1 lat2 lng2 : ℚ)
    (hi : ⌊lat1 * 10000⌋ = ⌊lat2 * 10000⌋) (hj : ⌊lng1 * 10000⌋ = ⌊lng2 * 10000⌋) :
    ((b.getCellForPoint lat1 lng1).1
        = (((b.getCellForPoint lat1 lng1).2).getCellForPoint lat2 lng2).1)
    ∧ ((((b.getCellForPoint lat1 lng1).2).getCellForPoint lat2 lng2).2
        = (b.getCellForPoint lat1 lng1).2)
    ∧ (mapGet (b.getCellForPoint lat1 lng1).2.knownCells
        (boardKey ⌊lat1 * 10000⌋ ⌊lng1 * 10000⌋) = some (b.getCellForPoint lat1 lng1).1)
    ∧ ((mapKeys b.knownCells).Nodup →
        (mapKeys (b.getCellForPoint lat1 lng1).2.knownCells).Nodup)
    ∧ (∀ k v, mapGet b.knownCells k = some v →
        mapGet (b.getCellForPoint lat1 lng1).2.knownCells k = some v) := by
  have hc2 : (⟨⌊lat2 * 10000⌋, ⌊lng2 * 10000⌋⟩ : Cell)
      = ⟨⌊lat1 * 10000⌋, ⌊lng1 * 10000⌋⟩ := by rw [hi, hj]
  unfold Board.getCellForPoint
  rw [hc2]
  have hl := getCanonicalCell_lookup b ⟨⌊lat1 * 10000⌋, ⌊lng1 * 10000⌋⟩
  have hidem := getCanonicalCell_of_get
    (b.getCanonicalCell ⟨⌊lat1 * 10000⌋, ⌊lng1 * 10000⌋⟩).2
    ⟨⌊lat1 * 10000⌋, ⌊lng1 * 10000⌋⟩ _ hl
  refine ⟨?_, ?_, hl, getCanonicalCell_nodup b _, getCanonicalCell_stable b _⟩
  · rw [hidem]
  · rw [hidem]

/-- Witness for C5: the points `(0, 0)` and `(1/20000, 1/20000)` both land
in cell `(0, 0)` of the fresh empty registry. -/
theorem canonical_cell_identity_witness :
    (((⟨[]⟩ : Board).getCellForPoint 0 0).1
        = ((((⟨[]⟩ : Board).getCellForPoint 0 0).2).getCellForPoint
            (1 / 20000) (1 / 20000)).1)
    ∧ (((((⟨[]⟩ : Board).getCellForPoint 0 0).2).getCellForPoint
            (1 / 20000) (1 / 20000)).2
        = ((⟨[]⟩ : Board).getCellForPoint 0 0).2)
    ∧ (mapGet ((⟨[]⟩ : Board).getCellForPoint 0 0).2.knownCells
        (boardKey ⌊(0 : ℚ) * 10000⌋ ⌊(0 : ℚ) * 10000⌋)
        = some ((⟨[]⟩ : Board).getCellForPoint 0 0).1)
    ∧ ((mapKeys (⟨[]⟩ : Board).knownCells).Nodup →
        (mapKeys ((⟨[]⟩ : Board).getCellForPoint 0 0).2.knownCells).Nodup)
    ∧ (∀ k v, mapGet (⟨[]⟩ : Board).knownCells k = some v →
        mapGet ((⟨[]⟩ : Board).getCellForPoint 0 0).2.knownCells k = some v) :=
  canonical_cell_identity ⟨[]⟩ 0 0 (1 / 20000) (1 / 20000)
    (by norm_num) (by norm_num)

/-- C2 (failing input): restoring the malformed-but-parseable blob
`{"carriedCoins": [], "cacheInventories": 5}` makes `loadGame` return
`false` with no exception escaping — but only after it has already
overwritten `carriedCoins` with the blob's value and cleared
`cacheStates`; `(5).forEach` then throws a `TypeError` that the `catch`
swallows.  The corrupt snapshot is thus partially applied: the in-memory
state is not left as it was before the call. -/
theorem loadGame_partial_apply_on_malformed_blob :
    loadGame
      (fun la ln =>
        match la, ln with
        | Js.num x, Js.num y => Except.ok (Js.num x, Js.num y)
        | _, _ => Except.error "Invalid LatLng object")
      (fun _ st => st)
      (some (some (Js.obj [("carriedCoins", Js.arr []),
        ("cacheInventories", Js.num 5)])))
      ⟨Js.arr [Js.obj [("value", Js.num 7)]],
        [(Js.str "0, 0", Js.obj [])], (Js.num 0, Js.num 0), []⟩
    = (false, ⟨Js.arr [], [], (Js.num 0, Js.num 0), []⟩)
    ∧ (Js.arr [] : Js) ≠ Js.arr [Js.obj [("value", Js.num 7)]] := by
  constructor
  · rfl
  · simp

end Geocache
